import Mathlib

/-!
Verification of the face-tracking / active-speaker-selection / overlay-layout
core of the realtime face-captioning app.

The embedding is shallow:
* JavaScript numbers that only ever pass through additions, subtractions,
  comparisons and divisions are modelled as exact rationals (`ℚ`),
  timestamps as integers (`ℤ`);
* the mouth geometry (`calculateDistance`, `calculateMouthOpenness`), which
  takes square roots, is modelled over the reals (`ℝ`);
* JavaScript strings are modelled as `List Char`; the canvas text-measuring
  oracle `ctx.measureText` is an arbitrary function `List Char → ℚ`;
* the `previousMouthOpennessRef` history object is modelled as a function
  `ℕ → Option ℚ`, and the JavaScript `||` default (which treats the number
  `0` as absent) is modelled explicitly by `jsOrDefault`;
* stateful functions return their updated state; the ES2019 stable
  `Array.prototype.sort` with comparator
  `(a, b) => b.mouthOpenDistance - a.mouthOpenDistance`
  is modelled by the stable `List.mergeSort` with the corresponding
  boolean order.
-/

/-! ### Mouth movement detector (src/App.tsx, `detectMouthMovement`) -/

/-- `MOUTH_MOVEMENT_THRESHOLD` from src/App.tsx. -/
def MOUTH_MOVEMENT_THRESHOLD : ℚ := 3 / 1000

/-- `MOUTH_MOVEMENT_TIMEOUT` from src/App.tsx (milliseconds). -/
def MOUTH_MOVEMENT_TIMEOUT : ℤ := 1500

/-- JavaScript `a || b` for `a` an optional number: `undefined` and the
number `0` are falsy, any other number is returned unchanged. -/
def jsOrDefault (v : Option ℚ) (d : ℚ) : ℚ :=
  match v with
  | none => d
  | some x => if x = 0 then d else x

/-- `detectMouthMovement` from src/App.tsx.  Looks up the previous openness
in the history (JS `||` default to `currentOpenness`), stores the current
openness, and reports movement iff the absolute difference exceeds the
threshold.  Returns the flag and the updated history. -/
def detectMouthMovement (hist : ℕ → Option ℚ) (faceId : ℕ) (currentOpenness : ℚ) :
    Bool × (ℕ → Option ℚ) :=
  let previousOpenness := jsOrDefault (hist faceId) currentOpenness
  let difference := |currentOpenness - previousOpenness|
  let hist' := fun i => if i = faceId then some currentOpenness else hist i
  (decide (difference > MOUTH_MOVEMENT_THRESHOLD), hist')

/-- The empty openness history: no face id has been seen yet. -/
def emptyOpennessHistory : ℕ → Option ℚ := fun _ => none

/-- C2: on a never-seen id the detector returns `false` regardless of the
openness value, and afterwards the history stores that value as the
baseline for the id. -/
theorem detectMouthMovement_first_sighting (hist : ℕ → Option ℚ) (faceId : ℕ)
    (x : ℚ) (h : hist faceId = none) :
    (detectMouthMovement hist faceId x).1 = false ∧
    (detectMouthMovement hist faceId x).2 faceId = some x := by
  constructor
  · simp only [detectMouthMovement, jsOrDefault, h]
    norm_num [MOUTH_MOVEMENT_THRESHOLD]
  · simp [detectMouthMovement]

/-- Witness for C2 at the concrete input `id = 0`, `x = 5`, empty history. -/
theorem detectMouthMovement_first_sighting_witness :
    emptyOpennessHistory 0 = none ∧
    (detectMouthMovement emptyOpennessHistory 0 5).1 = false ∧
    (detectMouthMovement emptyOpennessHistory 0 5).2 0 = some 5 :=
  ⟨rfl, detectMouthMovement_first_sighting emptyOpennessHistory 0 5 rfl⟩

/-- C3, counterexample: with baseline `v1 = 0` the stored value is falsy in
JavaScript, so the second call treats the id as unseen and returns `false`
even though `|1 - 0| > 0.003`. -/
theorem detectMouthMovement_zero_baseline_cex :
    (detectMouthMovement (detectMouthMovement emptyOpennessHistory 0 0).2 0 1).1 = false ∧
    |(1 : ℚ) - 0| > MOUTH_MOVEMENT_THRESHOLD := by
  constructor
  · simp only [detectMouthMovement, jsOrDefault, emptyOpennessHistory]
    norm_num [MOUTH_MOVEMENT_THRESHOLD]
  · rw [MOUTH_MOVEMENT_THRESHOLD]; norm_num

/-- C3, amended: provided the first stored openness `v1` is nonzero, a
second call for the same id returns `true` iff `|v2 - v1|` exceeds the
threshold `0.003` (so a difference of exactly `0.003` returns `false`). -/
theorem detectMouthMovement_change_iff (hist : ℕ → Option ℚ) (faceId : ℕ)
    (v1 v2 : ℚ) (h : v1 ≠ 0) :
    (detectMouthMovement (detectMouthMovement hist faceId v1).2 faceId v2).1 = true ↔
      |v2 - v1| > MOUTH_MOVEMENT_THRESHOLD := by
  simp [detectMouthMovement, jsOrDefault, h]

/-- Witness for C3's amended statement at `v1 = 1`, `v2 = 2`. -/
theorem detectMouthMovement_change_iff_witness :
    (1 : ℚ) ≠ 0 ∧
    ((detectMouthMovement (detectMouthMovement emptyOpennessHistory 0 1).2 0 2).1 = true ↔
      |(2 : ℚ) - 1| > MOUTH_MOVEMENT_THRESHOLD) :=
  ⟨one_ne_zero, detectMouthMovement_change_iff emptyOpennessHistory 0 1 2 one_ne_zero⟩

/-! ### Face records and the active speaker selector
(src/App.tsx, `FaceData`, `determineSpeakingFace`) -/

/-- One landmark of a face mesh: a 3-D point in normalized coordinates. -/
structure FaceLandmark where
  x : ℝ
  y : ℝ
  z : ℝ

/-- `FaceData` from src/App.tsx: the per-face record rebuilt every frame. -/
structure FaceData where
  id : ℕ
  landmarks : List FaceLandmark
  isMovingMouth : Bool
  mouthOpenDistance : ℚ
  lastUpdateTime : ℤ

/-- The filter predicate of `determineSpeakingFace`: a face is a speaking
candidate when its mouth is moving or its record was updated less than
`MOUTH_MOVEMENT_TIMEOUT` milliseconds ago. -/
def speakingCandidate (currentTime : ℤ) (face : FaceData) : Bool :=
  face.isMovingMouth || decide (currentTime - face.lastUpdateTime < MOUTH_MOVEMENT_TIMEOUT)

/-- The comparator `(a, b) => b.mouthOpenDistance - a.mouthOpenDistance`
passed to the stable `Array.prototype.sort`: `a` may stay before `b`
exactly when `b.mouthOpenDistance ≤ a.mouthOpenDistance`. -/
def opennessDescending (a b : FaceData) : Bool :=
  decide (b.mouthOpenDistance ≤ a.mouthOpenDistance)

/-- `determineSpeakingFace` from src/App.tsx. -/
def determineSpeakingFace (currentTime : ℤ) (activeFaceId : Option ℕ)
    (updatedFaces : List FaceData) : Option ℕ :=
  let movingFaces := updatedFaces.filter (speakingCandidate currentTime)
  if movingFaces.isEmpty then
    match activeFaceId with
    | some i => some i
    | none =>
      match updatedFaces with
      | [] => none
      | f :: _ => some f.id
  else
    ((movingFaces.mergeSort opennessDescending).head?).map FaceData.id

/-- The earliest record attaining the maximal `mouthOpenDistance` of the
list (`none` on the empty list): the record a stable descending sort puts
first. -/
def firstMostOpen : List FaceData → Option FaceData
  | [] => none
  | a :: l =>
    match firstMostOpen l with
    | none => some a
    | some b => if a.mouthOpenDistance < b.mouthOpenDistance then some b else some a

theorem firstMostOpen_cons (a : FaceData) (l : List FaceData) :
    firstMostOpen (a :: l) =
      match firstMostOpen l with
      | none => some a
      | some b =>
        if a.mouthOpenDistance < b.mouthOpenDistance then some b else some a := rfl

theorem opennessDescending_trans (a b c : FaceData)
    (hab : opennessDescending a b) (hbc : opennessDescending b c) :
    opennessDescending a c := by
  simp only [opennessDescending, decide_eq_true_eq] at *
  exact le_trans hbc hab

theorem opennessDescending_total (a b : FaceData) :
    opennessDescending a b || opennessDescending b a := by
  simp only [opennessDescending, Bool.or_eq_true, decide_eq_true_eq]
  exact le_total b.mouthOpenDistance a.mouthOpenDistance

theorem firstMostOpen_isSome (l : List FaceData) (h : l ≠ []) :
    ∃ m, firstMostOpen l = some m := by
  cases l with
  | nil => exact absurd rfl h
  | cons a l =>
    cases hl : firstMostOpen l with
    | none => exact ⟨a, by simp [firstMostOpen, hl]⟩
    | some b =>
      by_cases hd : a.mouthOpenDistance < b.mouthOpenDistance
      · exact ⟨b, by simp [firstMostOpen, hl, hd]⟩
      · exact ⟨a, by simp [firstMostOpen, hl, hd]⟩

/-- The head of the stable descending merge sort is the earliest record
with maximal `mouthOpenDistance`. -/
theorem head?_mergeSort_opennessDescending :
    ∀ l : List FaceData, l ≠ [] →
      (l.mergeSort opennessDescending).head? = firstMostOpen l := by
  intro l
  induction l with
  | nil => intro h; exact absurd rfl h
  | cons a l ih =>
    intro _
    obtain ⟨l₁, l₂, h₁, h₂, h₃⟩ :=
      List.mergeSort_cons opennessDescending_trans opennessDescending_total a l
    cases l with
    | nil =>
      simp [firstMostOpen]
    | cons b t =>
      have hbt : b :: t ≠ [] := List.cons_ne_nil b t
      obtain ⟨m, hm⟩ := firstMostOpen_isSome (b :: t) hbt
      have ihm : ((b :: t).mergeSort opennessDescending).head? = some m :=
        (ih hbt).trans hm
      cases l₁ with
      | nil =>
        -- the new record sorts first: nothing in the old list is strictly
        -- more open, so the first maximum of the extended list is `a`.
        simp only [List.nil_append] at h₁ h₂
        have hsorted := List.sorted_mergeSort opennessDescending_trans
          opennessDescending_total (a :: b :: t)
        rw [h₁] at hsorted
        have hmem : m ∈ l₂ := by
          have : m ∈ (b :: t).mergeSort opennessDescending :=
            List.mem_of_mem_head? ihm
          rwa [h₂] at this
        have ham : opennessDescending a m := (List.pairwise_cons.mp hsorted).1 m hmem
        have hle : m.mouthOpenDistance ≤ a.mouthOpenDistance := by
          simpa [opennessDescending] using ham
        have : firstMostOpen (a :: b :: t) = some a := by
          rw [firstMostOpen_cons, hm]
          simp [not_lt.mpr hle]
        rw [h₁, this]
        simp
      | cons c t₁ =>
        -- some earlier record is strictly more open than the new one:
        -- the head of the sort is unchanged, and so is the first maximum.
        have hc : ¬ opennessDescending a c := by
          have := h₃ c (by simp)
          simpa using this
        have hac : a.mouthOpenDistance < c.mouthOpenDistance := by
          simpa [opennessDescending] using hc
        have hhead : ((b :: t).mergeSort opennessDescending).head? = some c := by
          rw [h₂]; simp
        have hmc : m = c := by
          rw [ihm] at hhead
          exact Option.some.inj hhead
        have : firstMostOpen (a :: b :: t) = some m := by
          rw [firstMostOpen_cons, hm]
          simp [hmc ▸ hac]
        rw [h₁, this]
        simp [hmc]

/-- C4: when every record in a non-empty list is fresh (its
`lastUpdateTime` equals the current time), the timeout clause admits every
record, so the filter keeps the whole list, and the selector returns the
id of the earliest record with the largest `mouthOpenDistance`. -/
theorem determineSpeakingFace_fresh (now : ℤ) (prev : Option ℕ)
    (faces : List FaceData) (hne : faces ≠ [])
    (hfresh : ∀ f ∈ faces, f.lastUpdateTime = now) :
    faces.filter (speakingCandidate now) = faces ∧
    determineSpeakingFace now prev faces = (firstMostOpen faces).map FaceData.id := by
  have hall : ∀ f ∈ faces, speakingCandidate now f = true := by
    intro f hf
    have : now - f.lastUpdateTime = 0 := by rw [hfresh f hf]; ring
    simp [speakingCandidate, this, MOUTH_MOVEMENT_TIMEOUT]
  have hfil : faces.filter (speakingCandidate now) = faces :=
    List.filter_eq_self.mpr hall
  refine ⟨hfil, ?_⟩
  unfold determineSpeakingFace
  rw [hfil]
  have hninst : faces.isEmpty = false := by
    cases faces with
    | nil => exact absurd rfl hne
    | cons a l => rfl
  simp only [hninst, Bool.false_eq_true, if_false]
  rw [head?_mergeSort_opennessDescending faces hne]

/-- Witness for C4 at a concrete two-record frame. -/
theorem determineSpeakingFace_fresh_witness :
    ([⟨0, [], false, 1, 100⟩, ⟨1, [], true, 2, 100⟩] : List FaceData) ≠ [] ∧
    (∀ f ∈ ([⟨0, [], false, 1, 100⟩, ⟨1, [], true, 2, 100⟩] : List FaceData),
      f.lastUpdateTime = 100) ∧
    (([⟨0, [], false, 1, 100⟩, ⟨1, [], true, 2, 100⟩] : List FaceData).filter
        (speakingCandidate 100) =
      [⟨0, [], false, 1, 100⟩, ⟨1, [], true, 2, 100⟩] ∧
    determineSpeakingFace 100 none [⟨0, [], false, 1, 100⟩, ⟨1, [], true, 2, 100⟩] =
      (firstMostOpen [⟨0, [], false, 1, 100⟩, ⟨1, [], true, 2, 100⟩]).map FaceData.id) := by
  refine ⟨List.cons_ne_nil _ _, ?_, ?_⟩
  · intro f hf
    rcases List.mem_cons.mp hf with rfl | hf
    · rfl
    · rcases List.mem_cons.mp hf with rfl | hf
      · rfl
      · simp at hf
  · exact determineSpeakingFace_fresh 100 none _ (List.cons_ne_nil _ _)
      (by
        intro f hf
        rcases List.mem_cons.mp hf with rfl | hf
        · rfl
        · rcases List.mem_cons.mp hf with rfl | hf
          · rfl
          · simp at hf)

/-- C5: on an empty record list the selector returns the previous active
id unchanged — in particular `none` when there was no previous id. -/
theorem determineSpeakingFace_empty (now : ℤ) (prev : Option ℕ) :
    determineSpeakingFace now prev [] = prev := by
  cases prev <;> rfl

/-- C6: two records with ids 0 and 1, neither moving its mouth, with equal
openness and update time, and no previous active id: the selector returns
id 0, the first record in frame order, at every current time. -/
theorem determineSpeakingFace_none_moving (now : ℤ) :
    determineSpeakingFace now none
      [⟨0, [], false, 0, 0⟩, ⟨1, [], false, 0, 0⟩] = some 0 := by
  by_cases h : now < 1500
  · have hcand : speakingCandidate now ⟨0, [], false, 0, 0⟩ = true ∧
        speakingCandidate now ⟨1, [], false, 0, 0⟩ = true := by
      constructor <;> (simp [speakingCandidate, MOUTH_MOVEMENT_TIMEOUT]; omega)
    have hsorted : List.Pairwise (fun a b => opennessDescending a b = true)
        [(⟨0, [], false, 0, 0⟩ : FaceData), ⟨1, [], false, 0, 0⟩] := by
      simp [opennessDescending]
    unfold determineSpeakingFace
    rw [List.filter_cons_of_pos hcand.1, List.filter_cons_of_pos hcand.2]
    simp only [List.filter_nil, List.isEmpty_cons, Bool.false_eq_true, if_false]
    rw [List.mergeSort_of_sorted hsorted]
    rfl
  · have hcand : speakingCandidate now ⟨0, [], false, 0, 0⟩ = false ∧
        speakingCandidate now ⟨1, [], false, 0, 0⟩ = false := by
      constructor <;> (simp [speakingCandidate, MOUTH_MOVEMENT_TIMEOUT]; omega)
    unfold determineSpeakingFace
    rw [List.filter_cons_of_neg (by simp [hcand.1]),
      List.filter_cons_of_neg (by simp [hcand.2])]
    rfl

/-! ### Per-frame notification (src/App.tsx, `onResults`) -/

/-- The notification step of `onResults`: after selecting the speaking
face, `onActiveFaceChange` is invoked exactly when the selection differs
from the carried-over active id.  The result lists the notifications
emitted during the pass. -/
def frameEvents (now : ℤ) (previousActiveId : Option ℕ)
    (updatedFaces : List FaceData) : List (Option ℕ) :=
  let speakingFaceId := determineSpeakingFace now previousActiveId updatedFaces
  if speakingFaceId ≠ previousActiveId then [speakingFaceId] else []

/-- C7: the active-face-changed notification is emitted in a pass iff the
selector's output differs from the prior frame's active id; when they are
equal nothing is emitted. -/
theorem frameEvents_iff (now : ℤ) (prev : Option ℕ) (faces : List FaceData) :
    (frameEvents now prev faces ≠ [] ↔
      determineSpeakingFace now prev faces ≠ prev) ∧
    (determineSpeakingFace now prev faces = prev → frameEvents now prev faces = []) := by
  constructor
  · by_cases h : determineSpeakingFace now prev faces = prev <;>
      simp [frameEvents, h]
  · intro h
    simp [frameEvents, h]

/-- Witness for C7 at a concrete pass where the selection is unchanged. -/
theorem frameEvents_iff_witness :
    determineSpeakingFace 0 (some 3) [] = some 3 ∧
    frameEvents 0 (some 3) [] = [] :=
  ⟨rfl, (frameEvents_iff 0 (some 3) []).2 rfl⟩

/-! ### Caption word-wrap (src/components/FaceMeshRenderer.tsx, `wrapText`)

JavaScript strings are modelled as `List Char`; the canvas measuring
oracle `ctx.measureText(s).width` is an arbitrary `measure : List Char → ℚ`. -/

/-- JavaScript `text.split(' ')`: split on every single space, keeping
empty fragments for leading, trailing, or doubled spaces. -/
def splitOnSpace : List Char → List (List Char)
  | [] => [[]]
  | c :: cs =>
    match splitOnSpace cs with
    | [] => [[]]
    | w :: ws => if c = ' ' then [] :: w :: ws else (c :: w) :: ws

/-- JavaScript `lines.join(' ')`: concatenate with single spaces. -/
def joinWithSpace : List (List Char) → List Char
  | [] => []
  | [w] => w
  | w :: ws => w ++ ' ' :: joinWithSpace ws

/-- The loop body of `wrapText`: build the test line (current line, a
space, then the word — or just the word when the line is empty); if its
measured width exceeds the maximum and the current line is non-empty,
flush the line and restart from the word, otherwise keep the test line. -/
def wrapStep (measure : List Char → ℚ) (maxWidth : ℚ)
    (acc : List (List Char) × List Char) (word : List Char) :
    List (List Char) × List Char :=
  let testLine := if acc.2 ≠ [] then acc.2 ++ ' ' :: word else word
  if measure testLine > maxWidth ∧ acc.2 ≠ [] then (acc.1 ++ [acc.2], word)
  else (acc.1, testLine)

/-- `wrapText` from src/components/FaceMeshRenderer.tsx: fold the loop
body over the words of the text, then push the last line if non-empty. -/
def wrapText (measure : List Char → ℚ) (text : List Char) (maxWidth : ℚ) :
    List (List Char) :=
  let words := splitOnSpace text
  let r := words.foldl (wrapStep measure maxWidth) ([], [])
  if r.2 ≠ [] then r.1 ++ [r.2] else r.1

/-- Spec-side greedy grouping of the word list into lines, following the
spec's wording: a line is flushed and a new one started exactly when
appending the next word would exceed the width and the line is non-empty
(the first word of a line is always kept, so an over-long word occupies
its own line). -/
def wrapChunksGo (measure : List Char → ℚ) (maxWidth : ℚ)
    (cur : List (List Char)) : List (List Char) → List (List (List Char))
  | [] => [cur]
  | w :: ws =>
    if measure (joinWithSpace (cur ++ [w])) > maxWidth then
      cur :: wrapChunksGo measure maxWidth [w] ws
    else
      wrapChunksGo measure maxWidth (cur ++ [w]) ws

/-- Spec-side word wrap: group the words greedily, never splitting one. -/
def wrapChunksSpec (measure : List Char → ℚ) (maxWidth : ℚ) :
    List (List Char) → List (List (List Char))
  | [] => []
  | w :: ws => wrapChunksGo measure maxWidth [w] ws

theorem splitOnSpace_ne_nil (s : List Char) : splitOnSpace s ≠ [] := by
  cases s with
  | nil => simp [splitOnSpace]
  | cons c cs =>
    simp only [splitOnSpace]
    cases splitOnSpace cs with
    | nil => simp
    | cons w ws =>
      by_cases h : c = ' ' <;> simp [h]

theorem joinWithSpace_cons (w : List Char) (ws : List (List Char)) (h : ws ≠ []) :
    joinWithSpace (w :: ws) = w ++ ' ' :: joinWithSpace ws := by
  cases ws with
  | nil => exact absurd rfl h
  | cons v t => rfl

/-- `join` undoes `split`: the fragments of a text rebuild it exactly. -/
theorem joinWithSpace_splitOnSpace (s : List Char) :
    joinWithSpace (splitOnSpace s) = s := by
  induction s with
  | nil => rfl
  | cons c cs ih =>
    cases h : splitOnSpace cs with
    | nil => exact absurd h (splitOnSpace_ne_nil cs)
    | cons w ws =>
      rw [h] at ih
      by_cases hc : c = ' '
      · subst hc
        have hsplit : splitOnSpace (' ' :: cs) = [] :: w :: ws := by
          simp [splitOnSpace, h]
        rw [hsplit, joinWithSpace_cons [] (w :: ws) (List.cons_ne_nil w ws)]
        simpa using ih
      · have hsplit : splitOnSpace (c :: cs) = (c :: w) :: ws := by
          simp [splitOnSpace, h, hc]
        rw [hsplit]
        cases ws with
        | nil => simpa [joinWithSpace] using ih
        | cons v t =>
          rw [joinWithSpace_cons (c :: w) (v :: t) (List.cons_ne_nil v t)]
          rw [joinWithSpace_cons w (v :: t) (List.cons_ne_nil v t)] at ih
          simpa using ih

theorem joinWithSpace_append (xs ys : List (List Char)) (hx : xs ≠ [])
    (hy : ys ≠ []) :
    joinWithSpace (xs ++ ys) = joinWithSpace xs ++ ' ' :: joinWithSpace ys := by
  induction xs with
  | nil => exact absurd rfl hx
  | cons x t ih =>
    cases t with
    | nil =>
      rw [List.singleton_append, joinWithSpace_cons x ys hy]
      rfl
    | cons y t' =>
      have ht : y :: t' ≠ [] := List.cons_ne_nil y t'
      rw [List.cons_append, joinWithSpace_cons x ((y :: t') ++ ys)
        (by simp), ih ht, joinWithSpace_cons x (y :: t') ht]
      simp

theorem joinWithSpace_ne_nil (xs : List (List Char)) (hx : xs ≠ [])
    (hw : ∀ w ∈ xs, w ≠ []) : joinWithSpace xs ≠ [] := by
  cases xs with
  | nil => exact absurd rfl hx
  | cons x t =>
    cases t with
    | nil => simpa [joinWithSpace] using hw x (by simp)
    | cons y t' =>
      rw [joinWithSpace_cons x (y :: t') (List.cons_ne_nil y t')]
      rcases x with _ | ⟨c, x⟩ <;> simp

theorem joinWithSpace_singleton (w : List Char) : joinWithSpace [w] = w := rfl

theorem wrapChunksGo_cons (measure : List Char → ℚ) (mw : ℚ)
    (cur : List (List Char)) (w : List Char) (ws : List (List Char)) :
    wrapChunksGo measure mw cur (w :: ws) =
      if measure (joinWithSpace (cur ++ [w])) > mw then
        cur :: wrapChunksGo measure mw [w] ws
      else wrapChunksGo measure mw (cur ++ [w]) ws := rfl

/-- Running the source's fold from a non-empty current line produces, once
the pending line is flushed, exactly the spec-side greedy chunks rendered
as lines; and the pending line is never empty while all words are
non-empty. -/
theorem wrapFoldl_chunks (measure : List Char → ℚ) (mw : ℚ) :
    ∀ (ws lines cur : List (List Char)) (c : List Char),
      c = joinWithSpace cur → cur ≠ [] → (∀ w ∈ cur, w ≠ []) →
      (∀ w ∈ ws, w ≠ []) →
      (ws.foldl (wrapStep measure mw) (lines, c)).1 ++
          [(ws.foldl (wrapStep measure mw) (lines, c)).2] =
        lines ++ (wrapChunksGo measure mw cur ws).map joinWithSpace ∧
      (ws.foldl (wrapStep measure mw) (lines, c)).2 ≠ [] := by
  intro ws
  induction ws with
  | nil =>
    intro lines cur c hc hcur hcw _
    subst hc
    exact ⟨by simp [wrapChunksGo], joinWithSpace_ne_nil cur hcur hcw⟩
  | cons w ws ih =>
    intro lines cur c hc hcur hcw hws
    subst hc
    have hjc : joinWithSpace cur ≠ [] := joinWithSpace_ne_nil cur hcur hcw
    have happ : joinWithSpace (cur ++ [w]) = joinWithSpace cur ++ ' ' :: w := by
      rw [joinWithSpace_append cur [w] hcur (List.cons_ne_nil w []),
        joinWithSpace_singleton]
    have hwne : w ≠ [] := hws w (by simp)
    have hws' : ∀ v ∈ ws, v ≠ [] := fun v hv => hws v (by simp [hv])
    rw [List.foldl_cons]
    by_cases hgt : measure (joinWithSpace (cur ++ [w])) > mw
    · have hstep : wrapStep measure mw (lines, joinWithSpace cur) w =
          (lines ++ [joinWithSpace cur], w) := by
        simp only [wrapStep]
        rw [if_pos hjc, if_pos ⟨by rw [← happ]; exact hgt, hjc⟩]
      rw [hstep, wrapChunksGo_cons, if_pos hgt]
      obtain ⟨e1, e2⟩ := ih (lines ++ [joinWithSpace cur]) [w] w rfl
        (List.cons_ne_nil w [])
        (by intro v hv; simp only [List.mem_singleton] at hv; subst hv; exact hwne)
        hws'
      refine ⟨?_, e2⟩
      rw [e1]
      simp
    · have hstep : wrapStep measure mw (lines, joinWithSpace cur) w =
          (lines, joinWithSpace (cur ++ [w])) := by
        simp only [wrapStep]
        rw [if_pos hjc, if_neg (fun hand => hgt (by rw [happ]; exact hand.1)), happ]
      rw [hstep, wrapChunksGo_cons, if_neg hgt]
      exact ih lines (cur ++ [w]) (joinWithSpace (cur ++ [w])) rfl (by simp)
        (by
          intro v hv
          rcases List.mem_append.mp hv with h | h
          · exact hcw v h
          · simp only [List.mem_singleton] at h; subst h; exact hwne)
        hws'

/-- Refinement: on texts whose words are all non-empty, the source's
`wrapText` produces exactly the spec-side greedy chunks, rendered as
lines. -/
theorem wrapText_eq_chunks (measure : List Char → ℚ) (mw : ℚ) (text : List Char)
    (hw : ∀ w ∈ splitOnSpace text, w ≠ []) :
    wrapText measure text mw =
      (wrapChunksSpec measure mw (splitOnSpace text)).map joinWithSpace := by
  obtain ⟨w, ws, h⟩ : ∃ a l, splitOnSpace text = a :: l := by
    cases hs : splitOnSpace text with
    | nil => exact absurd hs (splitOnSpace_ne_nil text)
    | cons a l => exact ⟨a, l, rfl⟩
  rw [h] at hw
  simp only [wrapText]
  rw [h, List.foldl_cons]
  have hfirst : wrapStep measure mw ([], ([] : List Char)) w = ([], w) := by
    simp [wrapStep]
  rw [hfirst]
  obtain ⟨e1, e2⟩ := wrapFoldl_chunks measure mw ws [] [w] w rfl
    (List.cons_ne_nil w [])
    (by
      intro u hu
      simp only [List.mem_singleton] at hu
      rw [hu]
      exact hw w (by simp))
    (fun v hv => hw v (by simp [hv]))
  rw [if_pos e2, e1]
  simp [wrapChunksSpec]

theorem wrapChunksGo_flatten (measure : List Char → ℚ) (mw : ℚ) :
    ∀ (ws cur : List (List Char)),
      (wrapChunksGo measure mw cur ws).flatten = cur ++ ws := by
  intro ws
  induction ws with
  | nil => intro cur; simp [wrapChunksGo]
  | cons w ws ih =>
    intro cur
    rw [wrapChunksGo_cons]
    by_cases hgt : measure (joinWithSpace (cur ++ [w])) > mw
    · rw [if_pos hgt]
      simp [ih]
    · rw [if_neg hgt, ih]
      simp

theorem wrapChunksGo_ne_nil (measure : List Char → ℚ) (mw : ℚ) :
    ∀ (ws cur : List (List Char)), cur ≠ [] →
      ∀ chunk ∈ wrapChunksGo measure mw cur ws, chunk ≠ [] := by
  intro ws
  induction ws with
  | nil =>
    intro cur hcur chunk hc
    simp only [wrapChunksGo, List.mem_singleton] at hc
    subst hc
    exact hcur
  | cons w ws ih =>
    intro cur hcur chunk hc
    rw [wrapChunksGo_cons] at hc
    by_cases hgt : measure (joinWithSpace (cur ++ [w])) > mw
    · rw [if_pos hgt] at hc
      rcases List.mem_cons.mp hc with h | h
      · subst h; exact hcur
      · exact ih [w] (List.cons_ne_nil w []) chunk h
    · rw [if_neg hgt] at hc
      exact ih (cur ++ [w]) (by simp) chunk hc

theorem wrapChunksGo_width (measure : List Char → ℚ) (mw : ℚ) :
    ∀ (ws cur : List (List Char)),
      (2 ≤ cur.length → measure (joinWithSpace cur) ≤ mw) →
      ∀ chunk ∈ wrapChunksGo measure mw cur ws,
        2 ≤ chunk.length → measure (joinWithSpace chunk) ≤ mw := by
  intro ws
  induction ws with
  | nil =>
    intro cur hcur chunk hc
    simp only [wrapChunksGo, List.mem_singleton] at hc
    subst hc
    exact hcur
  | cons w ws ih =>
    intro cur hcur chunk hc
    rw [wrapChunksGo_cons] at hc
    by_cases hgt : measure (joinWithSpace (cur ++ [w])) > mw
    · rw [if_pos hgt] at hc
      rcases List.mem_cons.mp hc with h | h
      · subst h; exact hcur
      · exact ih [w] (by intro h2; norm_num at h2) chunk h
    · rw [if_neg hgt] at hc
      exact ih (cur ++ [w]) (fun _ => le_of_not_lt hgt) chunk hc

theorem joinWithSpace_map_flatten (chunks : List (List (List Char)))
    (h : ∀ c ∈ chunks, c ≠ []) :
    joinWithSpace (chunks.map joinWithSpace) = joinWithSpace chunks.flatten := by
  induction chunks with
  | nil => rfl
  | cons c t ih =>
    cases t with
    | nil => simp [joinWithSpace_singleton]
    | cons c' t' =>
      have hc : c ≠ [] := h c (by simp)
      have hrest : ∀ d ∈ c' :: t', d ≠ [] := fun d hd => h d (by simp [hd])
      have hfne : (c' :: t').flatten ≠ [] := by
        have hc' : c' ≠ [] := hrest c' (by simp)
        rw [List.flatten_cons]
        cases c' with
        | nil => exact absurd rfl hc'
        | cons x xs => simp
      calc joinWithSpace ((c :: c' :: t').map joinWithSpace)
          = joinWithSpace c ++ ' ' :: joinWithSpace ((c' :: t').map joinWithSpace) :=
            joinWithSpace_cons _ _ (by simp)
        _ = joinWithSpace c ++ ' ' :: joinWithSpace (c' :: t').flatten := by
            rw [ih hrest]
        _ = joinWithSpace (c ++ (c' :: t').flatten) :=
            (joinWithSpace_append c _ hc hfne).symm
        _ = joinWithSpace (c :: c' :: t').flatten := by simp [List.flatten_cons]

/-- C8, amended: on a text all of whose space-separated words are
non-empty, `wrapText` never splits a word (the lines render the greedy
chunking of the word list, whose chunks flatten back to the word list), a
new line starts exactly when appending the next word would exceed the
width and the current line is non-empty (the greedy chunking is defined by
that rule), joining the produced lines with single spaces reproduces the
text, and every line made of two or more words measures within the
maximum width. -/
theorem wrapText_correct (measure : List Char → ℚ) (mw : ℚ) (text : List Char)
    (hw : ∀ w ∈ splitOnSpace text, w ≠ []) :
    wrapText measure text mw =
      (wrapChunksSpec measure mw (splitOnSpace text)).map joinWithSpace ∧
    (wrapChunksSpec measure mw (splitOnSpace text)).flatten = splitOnSpace text ∧
    joinWithSpace (wrapText measure text mw) = text ∧
    ∀ chunk ∈ wrapChunksSpec measure mw (splitOnSpace text),
      2 ≤ chunk.length → measure (joinWithSpace chunk) ≤ mw := by
  obtain ⟨w, ws, h⟩ : ∃ a l, splitOnSpace text = a :: l := by
    cases hs : splitOnSpace text with
    | nil => exact absurd hs (splitOnSpace_ne_nil text)
    | cons a l => exact ⟨a, l, rfl⟩
  have h1 := wrapText_eq_chunks measure mw text hw
  have hflat : (wrapChunksSpec measure mw (splitOnSpace text)).flatten =
      splitOnSpace text := by
    rw [h]
    simp [wrapChunksSpec, wrapChunksGo_flatten]
  have hne : ∀ chunk ∈ wrapChunksSpec measure mw (splitOnSpace text), chunk ≠ [] := by
    rw [h]
    simp only [wrapChunksSpec]
    exact wrapChunksGo_ne_nil measure mw ws [w] (List.cons_ne_nil w [])
  refine ⟨h1, hflat, ?_, ?_⟩
  · rw [h1, joinWithSpace_map_flatten _ hne, hflat, joinWithSpace_splitOnSpace]
  · rw [h]
    simp only [wrapChunksSpec]
    exact wrapChunksGo_width measure mw ws [w] (by intro h2; norm_num at h2)

/-- C8, counterexample: on the text consisting of one space, the wrap
produces no lines at all (both fragments are empty), so joining the lines
yields the empty text, not the original. -/
theorem wrapText_drops_spaces_cex :
    wrapText (fun s => (s.length : ℚ)) [' '] 100 = [] ∧
    joinWithSpace (wrapText (fun s => (s.length : ℚ)) [' '] 100) ≠ [' '] := by
  constructor
  · rfl
  · intro hcontra
    simp [wrapText, splitOnSpace, wrapStep, joinWithSpace] at hcontra

/-- Witness for C8's amended statement on the text `"a b"` with the
character-count measure and width 3. -/
theorem wrapText_correct_witness :
    (∀ w ∈ splitOnSpace ['a', ' ', 'b'], w ≠ []) ∧
    (wrapText (fun s => (s.length : ℚ)) ['a', ' ', 'b'] 3 =
      (wrapChunksSpec (fun s => (s.length : ℚ)) 3
        (splitOnSpace ['a', ' ', 'b'])).map joinWithSpace ∧
    (wrapChunksSpec (fun s => (s.length : ℚ)) 3
        (splitOnSpace ['a', ' ', 'b'])).flatten = splitOnSpace ['a', ' ', 'b'] ∧
    joinWithSpace (wrapText (fun s => (s.length : ℚ)) ['a', ' ', 'b'] 3) =
      ['a', ' ', 'b'] ∧
    ∀ chunk ∈ wrapChunksSpec (fun s => (s.length : ℚ)) 3
        (splitOnSpace ['a', ' ', 'b']),
      2 ≤ chunk.length →
        (fun s => (s.length : ℚ)) (joinWithSpace chunk) ≤ 3) := by
  have hw : ∀ w ∈ splitOnSpace ['a', ' ', 'b'], w ≠ [] := by decide
  exact ⟨hw, wrapText_correct (fun s => (s.length : ℚ)) 3 ['a', ' ', 'b'] hw⟩

/-! ### Overlay renderer layout
(src/components/FaceMeshRenderer.tsx, `FaceMeshRenderer`) -/

/-- The fallback caption text `'Speak to add captions...'`. -/
def speakFallbackText : List Char := "Speak to add captions...".toList

/-- The observable layout decisions of one `FaceMeshRenderer` call:
whether the forehead marker was drawn, whether the caption bubble was
drawn, the wrapped caption lines, and the bubble height in pixels. -/
structure RenderedFace where
  markerDrawn : Bool
  captionDrawn : Bool
  captionLines : List (List Char)
  bubbleHeight : ℚ

/-- `FaceMeshRenderer` from src/components/FaceMeshRenderer.tsx, reduced
to its layout decisions: the forehead marker is drawn only when landmark
10 exists, the caption bubble only when additionally the caption text is
non-empty; the wrapped lines use the box width minus padding, and the
bubble height is `max(lineHeight * lines + 20, 46)`. -/
def FaceMeshRenderer (measure : List Char → ℚ) (landmarks : List FaceLandmark)
    (captionText : List Char) : RenderedFace :=
  match landmarks[10]? with
  | none =>
    { markerDrawn := false, captionDrawn := false, captionLines := [],
      bubbleHeight := 0 }
  | some _ =>
    if captionText ≠ [] then
      let displayText := if captionText ≠ [] then captionText else speakFallbackText
      let maxBoxWidth : ℚ := 300
      let lineHeight : ℚ := 20
      let textLines := wrapText measure displayText (maxBoxWidth - 40)
      let textHeight : ℚ := max (lineHeight * (textLines.length : ℚ) + 20) 46
      { markerDrawn := true, captionDrawn := true, captionLines := textLines,
        bubbleHeight := textHeight }
    else
      { markerDrawn := true, captionDrawn := false, captionLines := [],
        bubbleHeight := 0 }

/-- C9: for a face with an anchor landmark and a non-empty caption, the
bubble height is `max(lineHeight * numberOfLines + verticalPadding,
minimumHeight)` with line height 20, vertical padding 20 and minimum
height 46, where the lines wrap the caption into the interior width
(box width 300 minus 40 of horizontal padding). -/
theorem FaceMeshRenderer_bubbleHeight (measure : List Char → ℚ)
    (landmarks : List FaceLandmark) (caption : List Char)
    (h10 : (landmarks[10]?).isSome) (hc : caption ≠ []) :
    (FaceMeshRenderer measure landmarks caption).bubbleHeight =
      max (20 * ((wrapText measure caption (300 - 40)).length : ℚ) + 20) 46 := by
  obtain ⟨p, hp⟩ := Option.isSome_iff_exists.mp h10
  simp only [FaceMeshRenderer, hp, if_pos hc]

/-- Witness for C9 at an 11-landmark face with caption `"hi"`. -/
theorem FaceMeshRenderer_bubbleHeight_witness :
    ((List.replicate 11 (⟨0, 0, 0⟩ : FaceLandmark))[10]?).isSome = true ∧
    (['h', 'i'] : List Char) ≠ [] ∧
    (FaceMeshRenderer (fun s => (s.length : ℚ))
        (List.replicate 11 (⟨0, 0, 0⟩ : FaceLandmark)) ['h', 'i']).bubbleHeight =
      max (20 * ((wrapText (fun s => (s.length : ℚ)) ['h', 'i']
        (300 - 40)).length : ℚ) + 20) 46 :=
  ⟨rfl, by simp,
    FaceMeshRenderer_bubbleHeight (fun s => (s.length : ℚ))
      (List.replicate 11 (⟨0, 0, 0⟩ : FaceLandmark)) ['h', 'i'] rfl (by simp)⟩

/-- C10: when the anchor landmark (index 10) is absent the renderer draws
neither the forehead marker nor the caption bubble, and the caption
bubble is drawn exactly when the anchor exists and the caption text is
non-empty.  (The embedding is a total function: the skip involves no
error.) -/
theorem FaceMeshRenderer_skips_missing_anchor (measure : List Char → ℚ)
    (landmarks : List FaceLandmark) (caption : List Char) :
    (landmarks[10]? = none →
      (FaceMeshRenderer measure landmarks caption).markerDrawn = false ∧
      (FaceMeshRenderer measure landmarks caption).captionDrawn = false) ∧
    ((FaceMeshRenderer measure landmarks caption).captionDrawn = true ↔
      (landmarks[10]?).isSome ∧ caption ≠ []) := by
  cases h : landmarks[10]? with
  | none =>
    constructor
    · intro _
      simp [FaceMeshRenderer, h]
    · simp [FaceMeshRenderer, h]
  | some p =>
    constructor
    · intro hcontra
      simp [h] at hcontra
    · by_cases hc : caption = [] <;> simp [FaceMeshRenderer, h, hc]

/-- Witness for C10 at the empty landmark list. -/
theorem FaceMeshRenderer_skips_missing_anchor_witness :
    (([] : List FaceLandmark)[10]? = none) ∧
    ((FaceMeshRenderer (fun s => (s.length : ℚ)) [] ['h']).markerDrawn = false ∧
      (FaceMeshRenderer (fun s => (s.length : ℚ)) [] ['h']).captionDrawn = false) :=
  ⟨rfl, (FaceMeshRenderer_skips_missing_anchor (fun s => (s.length : ℚ)) [] ['h']).1 rfl⟩

/-! ### Mouth openness calculator
(src/App.tsx, `calculateDistance`, `calculateMouthOpenness`) -/

/-- `calculateDistance` from src/App.tsx: 3-D Euclidean distance between
two landmarks. -/
noncomputable def calculateDistance (l1 l2 : FaceLandmark) : ℝ :=
  Real.sqrt ((l1.x - l2.x) * (l1.x - l2.x) + (l1.y - l2.y) * (l1.y - l2.y) +
    (l1.z - l2.z) * (l1.z - l2.z))

/-- The `upperLipPoints` index list of `calculateMouthOpenness`. -/
def upperLipPoints : List ℕ := [0, 13, 14, 17, 37, 39, 40, 61, 185, 267, 269, 270, 409]

/-- The `lowerLipPoints` index list of `calculateMouthOpenness`. -/
def lowerLipPoints : List ℕ := [14, 17, 84, 87, 91, 146, 181, 306, 308, 324, 375, 402, 405]

/-- The index pairs visited by the loop
`for i < min(upperLipPoints.length, lowerLipPoints.length)`. -/
def lipPairs : List (ℕ × ℕ) := upperLipPoints.zip lowerLipPoints

/-- The loop body of `calculateMouthOpenness`: when both indices of the
pair exist in the landmark list, add their distance to the running sum and
bump the pair count; otherwise skip the pair. -/
noncomputable def opennessStep (landmarks : List FaceLandmark) (acc : ℝ × ℕ)
    (p : ℕ × ℕ) : ℝ × ℕ :=
  match landmarks[p.1]?, landmarks[p.2]? with
  | some u, some v => (acc.1 + calculateDistance u v, acc.2 + 1)
  | _, _ => acc

/-- `calculateMouthOpenness` from src/App.tsx: average distance over the
valid lip index pairs, `0` when no pair is valid. -/
noncomputable def calculateMouthOpenness (landmarks : List FaceLandmark) : ℝ :=
  let r := lipPairs.foldl (opennessStep landmarks) ((0 : ℝ), (0 : ℕ))
  if r.2 > 0 then r.1 / (r.2 : ℝ) else 0

/-- The pairs of an index list whose two indices both exist in the
landmark list, resolved to the landmarks themselves. -/
def validPairsOf (landmarks : List FaceLandmark) (ps : List (ℕ × ℕ)) :
    List (FaceLandmark × FaceLandmark) :=
  ps.filterMap fun p =>
    match landmarks[p.1]?, landmarks[p.2]? with
    | some u, some v => some (u, v)
    | _, _ => none

/-- The valid upper/lower lip landmark pairs of a landmark set. -/
def validLipPairs (landmarks : List FaceLandmark) : List (FaceLandmark × FaceLandmark) :=
  validPairsOf landmarks lipPairs

/-- Sum of the Euclidean distances over a list of landmark pairs. -/
noncomputable def pairDistanceSum (qs : List (FaceLandmark × FaceLandmark)) : ℝ :=
  (qs.map fun q => calculateDistance q.1 q.2).sum

/-- The spec's description of the openness calculator: the sum of the
3-D distances over the valid pairs divided by their number, `0` when no
pair is valid. -/
noncomputable def opennessSpec (landmarks : List FaceLandmark) : ℝ :=
  if 0 < (validLipPairs landmarks).length then
    pairDistanceSum (validLipPairs landmarks) / ((validLipPairs landmarks).length : ℝ)
  else 0

theorem calculateDistance_nonneg (u v : FaceLandmark) :
    0 ≤ calculateDistance u v :=
  Real.sqrt_nonneg _

theorem calculateDistance_self (u : FaceLandmark) : calculateDistance u u = 0 := by
  simp [calculateDistance]

/-- Unrolling the accumulating loop of `calculateMouthOpenness`: the fold
adds the distance sum over the valid pairs to the accumulator and counts
them. -/
theorem opennessStep_foldl (landmarks : List FaceLandmark) :
    ∀ (ps : List (ℕ × ℕ)) (acc : ℝ × ℕ),
      ps.foldl (opennessStep landmarks) acc =
        (acc.1 + pairDistanceSum (validPairsOf landmarks ps),
          acc.2 + (validPairsOf landmarks ps).length) := by
  intro ps
  induction ps with
  | nil =>
    intro acc
    simp [validPairsOf, pairDistanceSum]
  | cons p ps ih =>
    intro acc
    rw [List.foldl_cons]
    cases h1 : landmarks[p.1]? with
    | none =>
      have hstep : opennessStep landmarks acc p = acc := by
        simp [opennessStep, h1]
      have hvp : validPairsOf landmarks (p :: ps) = validPairsOf landmarks ps := by
        simp [validPairsOf, List.filterMap_cons, h1]
      rw [hstep, ih, hvp]
    | some u =>
      cases h2 : landmarks[p.2]? with
      | none =>
        have hstep : opennessStep landmarks acc p = acc := by
          simp [opennessStep, h1, h2]
        have hvp : validPairsOf landmarks (p :: ps) = validPairsOf landmarks ps := by
          simp [validPairsOf, List.filterMap_cons, h1, h2]
        rw [hstep, ih, hvp]
      | some v =>
        have hstep : opennessStep landmarks acc p =
            (acc.1 + calculateDistance u v, acc.2 + 1) := by
          simp [opennessStep, h1, h2]
        have hvp : validPairsOf landmarks (p :: ps) =
            (u, v) :: validPairsOf landmarks ps := by
          simp [validPairsOf, List.filterMap_cons, h1, h2]
        rw [hstep, ih, hvp]
        simp only [pairDistanceSum, List.map_cons, List.sum_cons, List.length_cons,
          Prod.mk.injEq]
        constructor
        · ring
        · omega

/-- A valid lip pair consists of two landmarks of the set. -/
theorem mem_validLipPairs (landmarks : List FaceLandmark)
    (q : FaceLandmark × FaceLandmark) (h : q ∈ validLipPairs landmarks) :
    q.1 ∈ landmarks ∧ q.2 ∈ landmarks := by
  simp only [validLipPairs, validPairsOf, List.mem_filterMap] at h
  obtain ⟨p, _, hmatch⟩ := h
  cases h1 : landmarks[p.1]? with
  | none => rw [h1] at hmatch; simp at hmatch
  | some u =>
    cases h2 : landmarks[p.2]? with
    | none => rw [h1, h2] at hmatch; simp at hmatch
    | some v =>
      rw [h1, h2] at hmatch
      simp only [Option.some.injEq] at hmatch
      rw [← hmatch]
      exact ⟨List.getElem?_mem h1, List.getElem?_mem h2⟩

/-- C1: the openness of a landmark set equals the sum of the 3-D
Euclidean distances over the valid configured lip pairs divided by their
number (`0` when no pair is valid); it is always non-negative; and when
every valid pair's two landmarks coincide the openness is `0`. -/
theorem calculateMouthOpenness_correct (landmarks : List FaceLandmark) :
    calculateMouthOpenness landmarks = opennessSpec landmarks ∧
    0 ≤ calculateMouthOpenness landmarks ∧
    ((∀ q ∈ validLipPairs landmarks, q.1 = q.2) →
      calculateMouthOpenness landmarks = 0) := by
  have heq : calculateMouthOpenness landmarks = opennessSpec landmarks := by
    simp only [calculateMouthOpenness]
    rw [opennessStep_foldl landmarks lipPairs ((0 : ℝ), (0 : ℕ))]
    simp only [zero_add]
    rfl
  have hnonneg : 0 ≤ opennessSpec landmarks := by
    simp only [opennessSpec]
    split
    · apply div_nonneg
      · simp only [pairDistanceSum]
        apply List.sum_nonneg
        intro x hx
        simp only [List.mem_map] at hx
        obtain ⟨q, _, rfl⟩ := hx
        exact calculateDistance_nonneg q.1 q.2
      · exact Nat.cast_nonneg _
    · exact le_refl 0
  have hzero : (∀ q ∈ validLipPairs landmarks, q.1 = q.2) →
      opennessSpec landmarks = 0 := by
    intro hq
    have hsum : pairDistanceSum (validLipPairs landmarks) = 0 := by
      simp only [pairDistanceSum]
      apply List.sum_eq_zero
      intro x hx
      simp only [List.mem_map] at hx
      obtain ⟨q, hmem, rfl⟩ := hx
      rw [hq q hmem]
      exact calculateDistance_self q.2
    simp only [opennessSpec, hsum]
    split
    · exact zero_div _
    · rfl
  exact ⟨heq, by rw [heq]; exact hnonneg, fun h => by rw [heq]; exact hzero h⟩

/-- Witness for C1 at a full 468-landmark set whose points all coincide:
every valid pair is degenerate and the openness evaluates to `0`. -/
theorem calculateMouthOpenness_correct_witness :
    (∀ q ∈ validLipPairs (List.replicate 468 (⟨0, 0, 0⟩ : FaceLandmark)),
      q.1 = q.2) ∧
    calculateMouthOpenness (List.replicate 468 (⟨0, 0, 0⟩ : FaceLandmark)) = 0 := by
  have h : ∀ q ∈ validLipPairs (List.replicate 468 (⟨0, 0, 0⟩ : FaceLandmark)),
      q.1 = q.2 := by
    intro q hq
    obtain ⟨h1, h2⟩ := mem_validLipPairs _ q hq
    rw [List.eq_of_mem_replicate h1, List.eq_of_mem_replicate h2]
  exact ⟨h, (calculateMouthOpenness_correct _).2.2 h⟩
